import Mathlib

/-!
Verification development for the dicomancer frame image pipeline
(`src/image_pipeline.rs`).  The pipeline takes a decoded DICOM pixel buffer
together with a frame index and produces an 8-bit RGBA bitmap.  The Rust
code is shallowly embedded below: machine integers (`u8`, `u16`, `u32`)
become `ℕ` (no arithmetic in the pipeline can overflow its machine type:
the only subtractions are `saturating_sub` and `255 - gray` with
`gray ≤ 255`, both of which coincide with truncated `ℕ` subtraction),
`Vec<T>`/slices become `List ℕ`, `Result<T, String>` becomes
`Except String T`, and the `f32` arithmetic inside `normalize_u16` is
embedded as exact rational arithmetic over `ℚ` (every intermediate value
is a small-magnitude rational; subtraction of values below 2^16 is exact
in `f32`, and the division and multiplication are correctly rounded, so
the endpoint, monotonicity and clamping facts proved here hold of the
`f32` computation as well).  `f32::round` rounds half away from zero,
which for the nonnegative clamped value equals `⌊x + 1/2⌋`.
-/

namespace Dicomancer

/-- Shallow embedding of `iced::widget::image::Handle`: the pipeline only
ever builds one through `Handle::from_rgba(width, height, pixels)`, so the
model records exactly those three components. -/
structure Handle where
  width : ℕ
  height : ℕ
  pixels : List ℕ
deriving DecidableEq

/-- Embedding of `Handle::from_rgba`. -/
def Handle.from_rgba (width height : ℕ) (pixels : List ℕ) : Handle :=
  ⟨width, height, pixels⟩

/-- Embedding of `dicom::pixeldata::PhotometricInterpretation`, restricted
to the variants the pipeline distinguishes; every other variant is
collected in `Other` with its DICOM name string, matching the crate's
catch-all. -/
inductive PhotometricInterpretation where
  | Monochrome1 : PhotometricInterpretation
  | Monochrome2 : PhotometricInterpretation
  | Rgb : PhotometricInterpretation
  | Other : String → PhotometricInterpretation
deriving DecidableEq

/-- Embedding of `PhotometricInterpretation::is_monochrome`: true exactly
for `Monochrome1` and `Monochrome2`. -/
def PhotometricInterpretation.is_monochrome : PhotometricInterpretation → Bool
  | PhotometricInterpretation.Monochrome1 => true
  | PhotometricInterpretation.Monochrome2 => true
  | _ => false

/-- Embedding of `PhotometricInterpretation::as_str`. -/
def PhotometricInterpretation.as_str : PhotometricInterpretation → String
  | PhotometricInterpretation.Monochrome1 => "MONOCHROME1"
  | PhotometricInterpretation.Monochrome2 => "MONOCHROME2"
  | PhotometricInterpretation.Rgb => "RGB"
  | PhotometricInterpretation.Other name => name

/-- Embedding of `dicom::pixeldata::PlanarConfiguration`: `Standard` is
pixel-interleaved `r0 g0 b0 r1 g1 b1 …`, `PixelFirst` is plane-sequential
`r0 r1 … g0 g1 … b0 b1 …`. -/
inductive PlanarConfiguration where
  | Standard : PlanarConfiguration
  | PixelFirst : PlanarConfiguration
deriving DecidableEq

/-- Embedding of the slice of `dicom::pixeldata::DecodedPixelData` the
pipeline consumes: the scalar accessors become fields, and the frame
materializers `to_vec_frame::<u8>`, `to_vec_frame::<u16>` and
`to_dynamic_image` become function-valued fields (the upstream decoder is
an external collaborator, so its behaviour is left abstract;
`to_dynamic_image` is modelled as already yielding the RGBA handle the
fallback arm builds from the dynamic image). -/
structure DecodedPixelData where
  number_of_frames : ℕ
  rows : ℕ
  columns : ℕ
  bits_allocated : ℕ
  photometric_interpretation : PhotometricInterpretation
  planar_configuration : PlanarConfiguration
  to_vec_frame_u8 : ℕ → Except String (List ℕ)
  to_vec_frame_u16 : ℕ → Except String (List ℕ)
  to_dynamic_image : ℕ → Except String Handle

/-- Embedding of `min_max_u16`: a single `fold` over the samples, `none`
only for the empty list. -/
def min_max_u16 (values : List ℕ) : Option (ℕ × ℕ) :=
  values.foldl
    (fun acc value =>
      match acc with
      | none => some (value, value)
      | some (mn, mx) => some (min mn value, max mx value))
    none

/-- Embedding of `normalize_u16`.  The Rust body computes in `f32`:
`range = (max - min) as f32`, `normalized = value.saturating_sub(min) as
f32 / range`, then `(normalized * 255.0).clamp(0.0, 255.0).round() as u8`.
Saturating subtraction is `ℕ` subtraction; the `f32` arithmetic is
embedded as exact arithmetic in `ℚ`, with `round` (half away from zero on
a nonnegative argument) embedded as `⌊x + 1/2⌋`. -/
def normalize_u16 (value min max : ℕ) : ℕ :=
  if max ≤ min then 0
  else
    let range : ℚ := ((max - min : ℕ) : ℚ)
    let normalized : ℚ := ((value - min : ℕ) : ℚ) / range
    let scaled : ℚ := normalized * 255
    let clamped : ℚ := if scaled < 0 then 0 else if 255 < scaled then 255 else scaled
    (⌊clamped + 1/2⌋).toNat

/-- Loop body of `rgb_interleaved_to_rgba`: `samples.chunks(3)` with the
`if let [r, g, b]` pattern emits `[r, g, b, 255]` per complete triplet and
skips a trailing chunk of fewer than three samples. -/
def chunks3Rgba : List ℕ → List ℕ
  | r :: g :: b :: rest => r :: g :: b :: 255 :: chunks3Rgba rest
  | _ => []

/-- Embedding of `rgb_interleaved_to_rgba`. -/
def rgb_interleaved_to_rgba (samples : List ℕ) : Except String (List ℕ) :=
  if ¬ samples.length % 3 = 0 then
    Except.error
      ("RGB buffer length " ++ toString samples.length ++ " is not divisible by 3")
  else
    Except.ok (chunks3Rgba samples)

/-- Emit loop of the planar-8-bit branch: pixel `idx` is
`(r_plane[idx], g_plane[idx], b_plane[idx], 255)`.  The indexing is in
range at every call site because the guards ensure every plane holds at
least `pixel_count` samples, so the `getD` default is never reached. -/
def planar_emit (r_plane g_plane b_plane : List ℕ) (pixel_count : ℕ) : List ℕ :=
  (List.range pixel_count).flatMap fun idx =>
    [r_plane.getD idx 0, g_plane.getD idx 0, b_plane.getD idx 0, 255]

/-- Emit loop of the planar-16-bit branch: like `planar_emit` but each
channel value is normalized against that channel plane's min/max pair. -/
def planar_emit_norm (r_plane g_plane b_plane : List ℕ)
    (rRange gRange bRange : ℕ × ℕ) (pixel_count : ℕ) : List ℕ :=
  (List.range pixel_count).flatMap fun idx =>
    [normalize_u16 (r_plane.getD idx 0) rRange.1 rRange.2,
     normalize_u16 (g_plane.getD idx 0) gRange.1 gRange.2,
     normalize_u16 (b_plane.getD idx 0) bRange.1 bRange.2,
     255]

/-- Embedding of `rgb_planar_to_rgba_u8`.  `split_at(pixel_count)` becomes
`take`/`drop`. -/
def rgb_planar_to_rgba_u8 (samples : List ℕ) (pixel_count : ℕ) :
    Except String (List ℕ) :=
  if samples.length < pixel_count * 3 then
    Except.error
      ("RGB buffer length " ++ toString samples.length ++ " is too small for "
        ++ toString pixel_count ++ " pixels")
  else
    let r_plane := samples.take pixel_count
    let rest := samples.drop pixel_count
    let g_plane := rest.take pixel_count
    let b_plane := rest.drop pixel_count
    if b_plane.length < pixel_count then
      Except.error "RGB buffer does not include all color planes"
    else
      Except.ok (planar_emit r_plane g_plane b_plane pixel_count)

/-- First loop of `rgb_interleaved_u16_to_rgba`: three running min/max
accumulators, one per channel, updated once per complete triplet. -/
def rgb_channel_ranges :
    List ℕ → (ℕ × ℕ) → (ℕ × ℕ) → (ℕ × ℕ) → ((ℕ × ℕ) × (ℕ × ℕ) × (ℕ × ℕ))
  | r :: g :: b :: rest, rAcc, gAcc, bAcc =>
      rgb_channel_ranges rest
        (min rAcc.1 r, max rAcc.2 r)
        (min gAcc.1 g, max gAcc.2 g)
        (min bAcc.1 b, max bAcc.2 b)
  | _, rAcc, gAcc, bAcc => (rAcc, gAcc, bAcc)

/-- Second loop of `rgb_interleaved_u16_to_rgba`: per-channel
normalization of each complete triplet, alpha fixed at 255. -/
def chunks3RgbaNorm (rr gg bb : ℕ × ℕ) : List ℕ → List ℕ
  | r :: g :: b :: rest =>
      normalize_u16 r rr.1 rr.2 :: normalize_u16 g gg.1 gg.2 ::
        normalize_u16 b bb.1 bb.2 :: 255 :: chunks3RgbaNorm rr gg bb rest
  | _ => []

/-- Embedding of `rgb_interleaved_u16_to_rgba`; the accumulators start at
`(u16::MAX, u16::MIN) = (65535, 0)`. -/
def rgb_interleaved_u16_to_rgba (samples : List ℕ) : Except String (List ℕ) :=
  if ¬ samples.length % 3 = 0 then
    Except.error
      ("RGB buffer length " ++ toString samples.length ++ " is not divisible by 3")
  else
    let ranges := rgb_channel_ranges samples (65535, 0) (65535, 0) (65535, 0)
    Except.ok (chunks3RgbaNorm ranges.1 ranges.2.1 ranges.2.2 samples)

/-- Embedding of `rgb_planar_u16_to_rgba`.  Note that `b_plane` is the
whole remainder of the buffer after the first two planes, so
`min_max_u16(b_plane)` ranges over any trailing samples beyond
`3 * pixel_count` as well. -/
def rgb_planar_u16_to_rgba (samples : List ℕ) (pixel_count : ℕ) :
    Except String (List ℕ) :=
  if samples.length < pixel_count * 3 then
    Except.error
      ("RGB buffer length " ++ toString samples.length ++ " is too small for "
        ++ toString pixel_count ++ " pixels")
  else
    let r_plane := samples.take pixel_count
    let rest := samples.drop pixel_count
    let g_plane := rest.take pixel_count
    let b_plane := rest.drop pixel_count
    if b_plane.length < pixel_count then
      Except.error "RGB buffer does not include all color planes"
    else
      let rRange := (min_max_u16 r_plane).getD (0, 0)
      let gRange := (min_max_u16 g_plane).getD (0, 0)
      let bRange := (min_max_u16 b_plane).getD (0, 0)
      Except.ok (planar_emit_norm r_plane g_plane b_plane rRange gRange bRange
        pixel_count)

/-- Emit loop of the 8-bit monochrome branch: one gray quad per sample,
inverted when the interpretation is Monochrome1. -/
def mono_emit (invert : Bool) (samples : List ℕ) : List ℕ :=
  samples.flatMap fun gray =>
    let value := if invert then 255 - gray else gray
    [value, value, value, 255]

/-- Emit loop of the 16-bit monochrome branch: each sample is normalized
against the frame-wide min/max, then optionally inverted. -/
def mono_emit_norm (invert : Bool) (mn mx : ℕ) (samples : List ℕ) : List ℕ :=
  samples.flatMap fun value =>
    let gray := normalize_u16 value mn mx
    let gray2 := if invert then 255 - gray else gray
    [gray2, gray2, gray2, 255]

namespace FrameImagePipeline

/-- Embedding of `FrameImagePipeline::monochrome_to_handle`.  The `u8`
subtraction `255u8.saturating_sub(gray)` and the (in-range) `255 - gray`
of the 16-bit branch are both `ℕ` subtraction. -/
def monochrome_to_handle (decoded : DecodedPixelData) (frame_idx : ℕ) :
    Except String Handle :=
  let width := decoded.columns
  let height := decoded.rows
  let invert : Bool :=
    match decoded.photometric_interpretation with
    | PhotometricInterpretation.Monochrome1 => true
    | _ => false
  if decoded.bits_allocated ≤ 8 then
    match decoded.to_vec_frame_u8 frame_idx with
    | Except.error err => Except.error ("Failed to materialize frame data: " ++ err)
    | Except.ok samples =>
        Except.ok (Handle.from_rgba width height (mono_emit invert samples))
  else
    match decoded.to_vec_frame_u16 frame_idx with
    | Except.error err => Except.error ("Failed to materialize frame data: " ++ err)
    | Except.ok samples =>
        let mm := (min_max_u16 samples).getD (0, 0)
        Except.ok (Handle.from_rgba width height
          (mono_emit_norm invert mm.1 mm.2 samples))

/-- Embedding of `FrameImagePipeline::rgb_to_handle`. -/
def rgb_to_handle (decoded : DecodedPixelData) (frame_idx : ℕ) :
    Except String Handle :=
  let width := decoded.columns
  let height := decoded.rows
  let pixel_count := width * height
  if decoded.bits_allocated ≤ 8 then
    match decoded.to_vec_frame_u8 frame_idx with
    | Except.error err => Except.error ("Failed to materialize RGB frame: " ++ err)
    | Except.ok samples =>
        (match decoded.planar_configuration with
          | PlanarConfiguration.Standard => rgb_interleaved_to_rgba samples
          | PlanarConfiguration.PixelFirst =>
              rgb_planar_to_rgba_u8 samples pixel_count).map
          (fun rgba => Handle.from_rgba width height rgba)
  else
    match decoded.to_vec_frame_u16 frame_idx with
    | Except.error err => Except.error ("Failed to materialize RGB frame: " ++ err)
    | Except.ok samples =>
        (match decoded.planar_configuration with
          | PlanarConfiguration.Standard => rgb_interleaved_u16_to_rgba samples
          | PlanarConfiguration.PixelFirst =>
              rgb_planar_u16_to_rgba samples pixel_count).map
          (fun rgba => Handle.from_rgba width height rgba)

/-- Embedding of `FrameImagePipeline::fallback_to_dynamic`; the
`to_dynamic_image` field already carries the RGBA handle the Rust code
builds from the dynamic image. -/
def fallback_to_dynamic (decoded : DecodedPixelData) (frame_idx : ℕ)
    (interpretation : String) : Except String Handle :=
  match decoded.to_dynamic_image frame_idx with
  | Except.error err =>
      Except.error
        ("Unsupported photometric interpretation `" ++ interpretation ++ "`: " ++ err)
  | Except.ok image => Except.ok image

/-- Embedding of `FrameImagePipeline::frame_to_handle`: bounds check, then
dispatch on the photometric interpretation (guarded monochrome arm first,
then `Rgb`, then the fallback). -/
def frame_to_handle (decoded : DecodedPixelData) (frame_idx : ℕ) :
    Except String Handle :=
  if decoded.number_of_frames ≤ frame_idx then
    Except.error
      ("Requested frame " ++ toString frame_idx ++ ", but only "
        ++ toString decoded.number_of_frames ++ " frame(s) are available")
  else if decoded.photometric_interpretation.is_monochrome then
    monochrome_to_handle decoded frame_idx
  else
    match decoded.photometric_interpretation with
    | PhotometricInterpretation.Rgb => rgb_to_handle decoded frame_idx
    | other => fallback_to_dynamic decoded frame_idx other.as_str

end FrameImagePipeline

/-- Embedding of the slice of `dicom::object::DefaultDicomObject` the
pipeline consumes: only `decode_pixel_data`, left abstract. -/
structure DefaultDicomObject where
  decode_pixel_data : Except String DecodedPixelData

namespace FrameImagePipeline

/-- Embedding of `FrameImagePipeline::render_first_frame`. -/
def render_first_frame (object : DefaultDicomObject) :
    Except String (Option Handle) :=
  match object.decode_pixel_data with
  | Except.error err => Except.error ("Failed to decode pixel data: " ++ err)
  | Except.ok decoded =>
      if decoded.number_of_frames = 0 then Except.ok none
      else (frame_to_handle decoded 0).map some

end FrameImagePipeline

/-! Helper lemmas about `normalize_u16`. -/

/-- Integer characterization of `normalize_u16`: the clamp can only fire
upward (the scaled value is nonnegative), doing so exactly when the input
exceeds `max`, and `⌊255 d / r + 1/2⌋ = (510 d + r) / (2 r)` in natural
division. -/
theorem normalize_u16_eq (value min max : ℕ) :
    normalize_u16 value min max =
      if max ≤ min then 0
      else if max - min < value - min then 255
      else (510 * (value - min) + (max - min)) / (2 * (max - min)) := by
  by_cases hle : max ≤ min
  · simp [normalize_u16, hle]
  · simp only [normalize_u16, hle, if_false]
    have hr : 0 < max - min := by omega
    have hrQ : (0 : ℚ) < ((max - min : ℕ) : ℚ) := by exact_mod_cast hr
    have hnonneg : (0 : ℚ) ≤ ((value - min : ℕ) : ℚ) / ((max - min : ℕ) : ℚ) * 255 := by
      positivity
    rw [if_neg (not_lt.mpr hnonneg)]
    have hcond : (255 : ℚ) < ((value - min : ℕ) : ℚ) / ((max - min : ℕ) : ℚ) * 255 ↔
        max - min < value - min := by
      rw [div_mul_eq_mul_div, lt_div_iff₀ hrQ]
      constructor
      · intro h
        by_contra hcon
        have hle2 : ((value - min : ℕ) : ℚ) ≤ ((max - min : ℕ) : ℚ) := by
          exact_mod_cast not_lt.mp hcon
        nlinarith
      · intro h
        have hlt2 : ((max - min : ℕ) : ℚ) < ((value - min : ℕ) : ℚ) := by
          exact_mod_cast h
        nlinarith
    by_cases hbig : max - min < value - min
    · rw [if_pos (hcond.mpr hbig), if_pos hbig]
      norm_num
      rfl
    · rw [if_neg (fun hl => hbig (hcond.mp hl)), if_neg hbig]
      have hrw : ((value - min : ℕ) : ℚ) / ((max - min : ℕ) : ℚ) * 255 + 1 / 2 =
          ((510 * (value - min) + (max - min) : ℕ) : ℚ) / ((2 * (max - min) : ℕ) : ℚ) := by
        push_cast
        field_simp
        ring
      rw [hrw, Int.floor_toNat, Nat.floor_div_eq_div]

/-- The normalized value never exceeds 255. -/
theorem normalize_u16_le_255 (value min max : ℕ) :
    normalize_u16 value min max ≤ 255 := by
  rw [normalize_u16_eq]
  by_cases hle : max ≤ min
  · simp [hle]
  · simp only [hle, if_false]
    by_cases hbig : max - min < value - min
    · simp [hbig]
    · rw [if_neg hbig]
      have hdiv : (510 * (value - min) + (max - min)) / (2 * (max - min)) < 256 :=
        (Nat.div_lt_iff_lt_mul (by omega)).mpr (by omega)
      omega

/-- Monotonicity of `normalize_u16` in the sample value at fixed bounds. -/
theorem normalize_u16_mono (min max v1 v2 : ℕ) (h : v1 ≤ v2) :
    normalize_u16 v1 min max ≤ normalize_u16 v2 min max := by
  rw [normalize_u16_eq, normalize_u16_eq]
  by_cases hle : max ≤ min
  · simp [hle]
  · simp only [hle, if_false]
    by_cases h1 : max - min < v1 - min
    · rw [if_pos h1, if_pos (by omega : max - min < v2 - min)]
    · rw [if_neg h1]
      by_cases h2 : max - min < v2 - min
      · rw [if_pos h2]
        have hdiv : (510 * (v1 - min) + (max - min)) / (2 * (max - min)) < 256 :=
          (Nat.div_lt_iff_lt_mul (by omega)).mpr (by omega)
        omega
      · rw [if_neg h2]
        exact Nat.div_le_div_right (by omega)

/-- The minimum normalizes to 0 whenever the range is nonempty. -/
theorem normalize_u16_at_min (min max : ℕ) (h : min < max) :
    normalize_u16 min min max = 0 := by
  rw [normalize_u16_eq]
  rw [if_neg (by omega), if_neg (by omega)]
  rw [show min - min = 0 by omega]
  simp only [Nat.mul_zero, Nat.zero_add]
  exact Nat.div_eq_of_lt (by omega)

/-- The maximum normalizes to 255 whenever the range is nonempty. -/
theorem normalize_u16_at_max (min max : ℕ) (h : min < max) :
    normalize_u16 max min max = 255 := by
  rw [normalize_u16_eq]
  rw [if_neg (by omega), if_neg (by omega)]
  rw [show 510 * (max - min) + (max - min) = 2 * (max - min) * 255 + (max - min) by ring]
  rw [Nat.mul_add_div (by omega)]
  rw [Nat.div_eq_of_lt (by omega)]

/-! Helper lemmas about the RGBA quad structure of the emitted byte lists. -/

/-- Positional lookup past four cons cells. -/
theorem getElem?_cons4 (a b c d : ℕ) (t : List ℕ) (n : ℕ) :
    (a :: b :: c :: d :: t)[n + 4]? = t[n]? := by
  simp [List.getElem?_cons_succ]

/-- Positional lookup past three cons cells. -/
theorem getElem?_cons3 (a b c : ℕ) (t : List ℕ) (n : ℕ) :
    (a :: b :: c :: t)[n + 3]? = t[n]? := by
  simp [List.getElem?_cons_succ]

/-- Alpha-opacity of an RGBA byte list: every fourth byte equals 255. -/
def alpha_opaque (pixels : List ℕ) : Prop :=
  ∀ k, 4 * k + 3 < pixels.length → pixels[4 * k + 3]? = some 255

/-- Prepending one RGBA quad with alpha 255 preserves alpha-opacity. -/
theorem alpha_opaque_cons4 (a b c : ℕ) (t : List ℕ) (ht : alpha_opaque t) :
    alpha_opaque (a :: b :: c :: 255 :: t) := by
  intro k hk
  cases k with
  | zero => simp
  | succ k =>
      have e : 4 * (k + 1) + 3 = (4 * k + 3) + 4 := by ring
      rw [e, getElem?_cons4]
      exact ht k (by simp only [List.length_cons] at hk; omega)

/-- Length of a flat-mapped list of RGBA quads. -/
theorem flatMap4_length {α : Type} (s : List α) (F : α → List ℕ)
    (hF : ∀ a, (F a).length = 4) : (s.flatMap F).length = 4 * s.length := by
  induction s with
  | nil => simp
  | cons a t ih =>
      simp only [List.flatMap_cons, List.length_append, List.length_cons, hF, ih]
      ring

/-- Positional access into a flat-mapped list of RGBA quads. -/
theorem flatMap4_getElem {α : Type} (s : List α) (F : α → List ℕ)
    (hF : ∀ a, (F a).length = 4) :
    ∀ i j, j < 4 →
      (s.flatMap F)[4 * i + j]? = s[i]?.bind fun a => (F a)[j]? := by
  induction s with
  | nil => intro i j _; simp
  | cons a t ih =>
      intro i j hj
      cases i with
      | zero =>
          rw [List.flatMap_cons, Nat.mul_zero, Nat.zero_add,
            List.getElem?_append_left (by rw [hF]; omega)]
          simp
      | succ i =>
          have e : 4 * (i + 1) + j = (4 * i + j) + 4 := by ring
          rw [List.flatMap_cons, e,
            List.getElem?_append_right (by rw [hF]; omega), hF,
            show 4 * i + j + 4 - 4 = 4 * i + j by omega, ih i j hj]
          simp

/-- Alpha-opacity of a flat-mapped list of RGBA quads. -/
theorem flatMap4_alpha {α : Type} (s : List α) (F : α → List ℕ)
    (hF : ∀ a, (F a).length = 4) (hA : ∀ a, (F a)[3]? = some 255) :
    alpha_opaque (s.flatMap F) := by
  intro k hk
  rw [flatMap4_getElem s F hF k 3 (by omega)]
  rw [flatMap4_length s F hF] at hk
  rw [List.getElem?_eq_getElem (by omega : k < s.length)]
  simp [hA]

/-- A positional lookup below a `take` bound passes through. -/
theorem getElem?_take_lt (l : List ℕ) (n m : ℕ) (h : m < n) :
    (l.take n)[m]? = l[m]? := by
  simp [List.getElem?_take, h]

/-- Congruence for `flatMap` under pointwise agreement on members. -/
theorem flatMap_congr_mem {α β : Type} (l : List α) (F G : α → List β)
    (h : ∀ x ∈ l, F x = G x) : l.flatMap F = l.flatMap G := by
  induction l with
  | nil => rfl
  | cons a t ih =>
      rw [List.flatMap_cons, List.flatMap_cons, h a (by simp),
        ih (fun x hx => h x (by simp [hx]))]

/-- Length of the 8-bit monochrome emit loop. -/
theorem mono_emit_length (invert : Bool) (s : List ℕ) :
    (mono_emit invert s).length = 4 * s.length :=
  flatMap4_length s
    (fun gray =>
      let value := if invert then 255 - gray else gray
      [value, value, value, 255])
    (fun _ => rfl)

/-- Alpha-opacity of the 8-bit monochrome emit loop. -/
theorem mono_emit_alpha (invert : Bool) (s : List ℕ) :
    alpha_opaque (mono_emit invert s) :=
  flatMap4_alpha s
    (fun gray =>
      let value := if invert then 255 - gray else gray
      [value, value, value, 255])
    (fun _ => rfl) (fun _ => rfl)

/-- Positional access into the 8-bit monochrome emit loop. -/
theorem mono_emit_getElem (invert : Bool) (s : List ℕ) (i g : ℕ)
    (hg : s[i]? = some g) :
    (mono_emit invert s)[4 * i]? = some (if invert then 255 - g else g) ∧
    (mono_emit invert s)[4 * i + 1]? = some (if invert then 255 - g else g) ∧
    (mono_emit invert s)[4 * i + 2]? = some (if invert then 255 - g else g) ∧
    (mono_emit invert s)[4 * i + 3]? = some 255 := by
  have h0 := flatMap4_getElem s
    (fun gray =>
      let value := if invert then 255 - gray else gray
      [value, value, value, 255]) (fun _ => rfl) i 0 (by omega)
  have h1 := flatMap4_getElem s
    (fun gray =>
      let value := if invert then 255 - gray else gray
      [value, value, value, 255]) (fun _ => rfl) i 1 (by omega)
  have h2 := flatMap4_getElem s
    (fun gray =>
      let value := if invert then 255 - gray else gray
      [value, value, value, 255]) (fun _ => rfl) i 2 (by omega)
  have h3 := flatMap4_getElem s
    (fun gray =>
      let value := if invert then 255 - gray else gray
      [value, value, value, 255]) (fun _ => rfl) i 3 (by omega)
  rw [hg] at h0 h1 h2 h3
  exact ⟨h0, h1, h2, h3⟩

/-- Length of the 16-bit monochrome emit loop. -/
theorem mono_emit_norm_length (invert : Bool) (mn mx : ℕ) (s : List ℕ) :
    (mono_emit_norm invert mn mx s).length = 4 * s.length :=
  flatMap4_length s
    (fun value =>
      let gray := normalize_u16 value mn mx
      let gray2 := if invert then 255 - gray else gray
      [gray2, gray2, gray2, 255])
    (fun _ => rfl)

/-- Alpha-opacity of the 16-bit monochrome emit loop. -/
theorem mono_emit_norm_alpha (invert : Bool) (mn mx : ℕ) (s : List ℕ) :
    alpha_opaque (mono_emit_norm invert mn mx s) :=
  flatMap4_alpha s
    (fun value =>
      let gray := normalize_u16 value mn mx
      let gray2 := if invert then 255 - gray else gray
      [gray2, gray2, gray2, 255])
    (fun _ => rfl) (fun _ => rfl)

/-- A degenerate min/max pair collapses the 16-bit monochrome emit loop
to constant quads (0 for direct, 255 for inverted gray). -/
theorem mono_emit_norm_const (invert : Bool) (mn mx : ℕ) (s : List ℕ)
    (h : mx ≤ mn) :
    mono_emit_norm invert mn mx s =
      s.flatMap fun _ =>
        [if invert then 255 else 0, if invert then 255 else 0,
         if invert then 255 else 0, 255] := by
  rw [mono_emit_norm]
  refine flatMap_congr_mem s _ _ (fun v _ => ?_)
  have hz : normalize_u16 v mn mx = 0 := by rw [normalize_u16_eq, if_pos h]
  cases invert <;> simp [hz]

/-- Length of the planar-8-bit emit loop. -/
theorem planar_emit_length (rp gp bp : List ℕ) (pc : ℕ) :
    (planar_emit rp gp bp pc).length = 4 * pc := by
  rw [planar_emit, flatMap4_length (List.range pc)
    (fun idx => [rp.getD idx 0, gp.getD idx 0, bp.getD idx 0, 255])
    (fun _ => rfl), List.length_range]

/-- Alpha-opacity of the planar-8-bit emit loop. -/
theorem planar_emit_alpha (rp gp bp : List ℕ) (pc : ℕ) :
    alpha_opaque (planar_emit rp gp bp pc) :=
  flatMap4_alpha (List.range pc)
    (fun idx => [rp.getD idx 0, gp.getD idx 0, bp.getD idx 0, 255])
    (fun _ => rfl) (fun _ => rfl)

/-- Positional access into the planar-8-bit emit loop. -/
theorem planar_emit_getElem (rp gp bp : List ℕ) (pc idx : ℕ) (h : idx < pc) :
    (planar_emit rp gp bp pc)[4 * idx]? = some (rp.getD idx 0) ∧
    (planar_emit rp gp bp pc)[4 * idx + 1]? = some (gp.getD idx 0) ∧
    (planar_emit rp gp bp pc)[4 * idx + 2]? = some (bp.getD idx 0) ∧
    (planar_emit rp gp bp pc)[4 * idx + 3]? = some 255 := by
  have hidx : (List.range pc)[idx]? = some idx := by
    simp [List.getElem?_range, h]
  have h0 := flatMap4_getElem (List.range pc)
    (fun idx => [rp.getD idx 0, gp.getD idx 0, bp.getD idx 0, 255])
    (fun _ => rfl) idx 0 (by omega)
  have h1 := flatMap4_getElem (List.range pc)
    (fun idx => [rp.getD idx 0, gp.getD idx 0, bp.getD idx 0, 255])
    (fun _ => rfl) idx 1 (by omega)
  have h2 := flatMap4_getElem (List.range pc)
    (fun idx => [rp.getD idx 0, gp.getD idx 0, bp.getD idx 0, 255])
    (fun _ => rfl) idx 2 (by omega)
  have h3 := flatMap4_getElem (List.range pc)
    (fun idx => [rp.getD idx 0, gp.getD idx 0, bp.getD idx 0, 255])
    (fun _ => rfl) idx 3 (by omega)
  rw [hidx] at h0 h1 h2 h3
  exact ⟨h0, h1, h2, h3⟩

/-- Length of the planar-16-bit emit loop. -/
theorem planar_emit_norm_length (rp gp bp : List ℕ) (rr gg bb : ℕ × ℕ)
    (pc : ℕ) : (planar_emit_norm rp gp bp rr gg bb pc).length = 4 * pc := by
  rw [planar_emit_norm, flatMap4_length (List.range pc)
    (fun idx =>
      [normalize_u16 (rp.getD idx 0) rr.1 rr.2,
       normalize_u16 (gp.getD idx 0) gg.1 gg.2,
       normalize_u16 (bp.getD idx 0) bb.1 bb.2, 255])
    (fun _ => rfl), List.length_range]

/-- Alpha-opacity of the planar-16-bit emit loop. -/
theorem planar_emit_norm_alpha (rp gp bp : List ℕ) (rr gg bb : ℕ × ℕ)
    (pc : ℕ) : alpha_opaque (planar_emit_norm rp gp bp rr gg bb pc) :=
  flatMap4_alpha (List.range pc)
    (fun idx =>
      [normalize_u16 (rp.getD idx 0) rr.1 rr.2,
       normalize_u16 (gp.getD idx 0) gg.1 gg.2,
       normalize_u16 (bp.getD idx 0) bb.1 bb.2, 255])
    (fun _ => rfl) (fun _ => rfl)

/-- Positional access into the planar-16-bit emit loop. -/
theorem planar_emit_norm_getElem (rp gp bp : List ℕ) (rr gg bb : ℕ × ℕ)
    (pc idx : ℕ) (h : idx < pc) :
    (planar_emit_norm rp gp bp rr gg bb pc)[4 * idx]? =
      some (normalize_u16 (rp.getD idx 0) rr.1 rr.2) ∧
    (planar_emit_norm rp gp bp rr gg bb pc)[4 * idx + 1]? =
      some (normalize_u16 (gp.getD idx 0) gg.1 gg.2) ∧
    (planar_emit_norm rp gp bp rr gg bb pc)[4 * idx + 2]? =
      some (normalize_u16 (bp.getD idx 0) bb.1 bb.2) ∧
    (planar_emit_norm rp gp bp rr gg bb pc)[4 * idx + 3]? = some 255 := by
  have hidx : (List.range pc)[idx]? = some idx := by
    simp [List.getElem?_range, h]
  have h0 := flatMap4_getElem (List.range pc)
    (fun idx =>
      [normalize_u16 (rp.getD idx 0) rr.1 rr.2,
       normalize_u16 (gp.getD idx 0) gg.1 gg.2,
       normalize_u16 (bp.getD idx 0) bb.1 bb.2, 255])
    (fun _ => rfl) idx 0 (by omega)
  have h1 := flatMap4_getElem (List.range pc)
    (fun idx =>
      [normalize_u16 (rp.getD idx 0) rr.1 rr.2,
       normalize_u16 (gp.getD idx 0) gg.1 gg.2,
       normalize_u16 (bp.getD idx 0) bb.1 bb.2, 255])
    (fun _ => rfl) idx 1 (by omega)
  have h2 := flatMap4_getElem (List.range pc)
    (fun idx =>
      [normalize_u16 (rp.getD idx 0) rr.1 rr.2,
       normalize_u16 (gp.getD idx 0) gg.1 gg.2,
       normalize_u16 (bp.getD idx 0) bb.1 bb.2, 255])
    (fun _ => rfl) idx 2 (by omega)
  have h3 := flatMap4_getElem (List.range pc)
    (fun idx =>
      [normalize_u16 (rp.getD idx 0) rr.1 rr.2,
       normalize_u16 (gp.getD idx 0) gg.1 gg.2,
       normalize_u16 (bp.getD idx 0) bb.1 bb.2, 255])
    (fun _ => rfl) idx 3 (by omega)
  rw [hidx] at h0 h1 h2 h3
  exact ⟨h0, h1, h2, h3⟩

/-- Length of the interleaved-8-bit emit loop: four output bytes per
complete input triplet, an incomplete trailing chunk contributing none. -/
theorem chunks3Rgba_length (s : List ℕ) :
    (chunks3Rgba s).length = 4 * (s.length / 3) := by
  induction s using chunks3Rgba.induct with
  | case1 r g b rest ih =>
      simp only [chunks3Rgba, List.length_cons, ih]
      omega
  | case2 l h =>
      cases l with
      | nil => simp [chunks3Rgba]
      | cons x xs =>
          cases xs with
          | nil => simp [chunks3Rgba]
          | cons y ys =>
              cases ys with
              | nil => simp [chunks3Rgba]
              | cons z zs => exact absurd rfl (h x y z zs)

/-- Positional access into the interleaved-8-bit emit loop. -/
theorem chunks3Rgba_getElem (s : List ℕ) :
    ∀ i, 3 * i + 2 < s.length →
      (chunks3Rgba s)[4 * i]? = s[3 * i]? ∧
      (chunks3Rgba s)[4 * i + 1]? = s[3 * i + 1]? ∧
      (chunks3Rgba s)[4 * i + 2]? = s[3 * i + 2]? ∧
      (chunks3Rgba s)[4 * i + 3]? = some 255 := by
  induction s using chunks3Rgba.induct with
  | case1 r g b rest ih =>
      intro i hi
      simp only [chunks3Rgba]
      cases i with
      | zero => simp
      | succ i =>
          have hrest : 3 * i + 2 < rest.length := by
            simp only [List.length_cons] at hi; omega
          obtain ⟨ih0, ih1, ih2, ih3⟩ := ih i hrest
          refine ⟨?_, ?_, ?_, ?_⟩
          · rw [show 4 * (i + 1) = 4 * i + 4 by ring, getElem?_cons4,
              show 3 * (i + 1) = 3 * i + 3 by ring, getElem?_cons3, ih0]
          · rw [show 4 * (i + 1) + 1 = (4 * i + 1) + 4 by ring, getElem?_cons4,
              show 3 * (i + 1) + 1 = (3 * i + 1) + 3 by ring, getElem?_cons3, ih1]
          · rw [show 4 * (i + 1) + 2 = (4 * i + 2) + 4 by ring, getElem?_cons4,
              show 3 * (i + 1) + 2 = (3 * i + 2) + 3 by ring, getElem?_cons3, ih2]
          · rw [show 4 * (i + 1) + 3 = (4 * i + 3) + 4 by ring, getElem?_cons4, ih3]
  | case2 l h =>
      intro i hi
      exfalso
      cases l with
      | nil => simp at hi
      | cons x xs =>
          cases xs with
          | nil => simp only [List.length_cons, List.length_nil] at hi; omega
          | cons y ys =>
              cases ys with
              | nil => simp only [List.length_cons, List.length_nil] at hi; omega
              | cons z zs => exact absurd rfl (h x y z zs)

/-- Alpha-opacity of the interleaved-8-bit emit loop. -/
theorem chunks3Rgba_alpha (s : List ℕ) : alpha_opaque (chunks3Rgba s) := by
  induction s using chunks3Rgba.induct with
  | case1 r g b rest ih => exact alpha_opaque_cons4 r g b (chunks3Rgba rest) ih
  | case2 l h =>
      cases l with
      | nil => intro k hk; simp [chunks3Rgba] at hk
      | cons x xs =>
          cases xs with
          | nil => intro k hk; simp [chunks3Rgba] at hk
          | cons y ys =>
              cases ys with
              | nil => intro k hk; simp [chunks3Rgba] at hk
              | cons z zs => exact absurd rfl (h x y z zs)

/-- Length of the interleaved-16-bit emit loop. -/
theorem chunks3RgbaNorm_length (rr gg bb : ℕ × ℕ) (s : List ℕ) :
    (chunks3RgbaNorm rr gg bb s).length = 4 * (s.length / 3) := by
  induction s using chunks3Rgba.induct with
  | case1 r g b rest ih =>
      simp only [chunks3RgbaNorm, List.length_cons, ih]
      omega
  | case2 l h =>
      cases l with
      | nil => simp [chunks3RgbaNorm]
      | cons x xs =>
          cases xs with
          | nil => simp [chunks3RgbaNorm]
          | cons y ys =>
              cases ys with
              | nil => simp [chunks3RgbaNorm]
              | cons z zs => exact absurd rfl (h x y z zs)

/-- Alpha-opacity of the interleaved-16-bit emit loop. -/
theorem chunks3RgbaNorm_alpha (rr gg bb : ℕ × ℕ) (s : List ℕ) :
    alpha_opaque (chunks3RgbaNorm rr gg bb s) := by
  induction s using chunks3Rgba.induct with
  | case1 r g b rest ih =>
      exact alpha_opaque_cons4 _ _ _ (chunks3RgbaNorm rr gg bb rest) ih
  | case2 l h =>
      cases l with
      | nil => intro k hk; simp [chunks3RgbaNorm] at hk
      | cons x xs =>
          cases xs with
          | nil => intro k hk; simp [chunks3RgbaNorm] at hk
          | cons y ys =>
              cases ys with
              | nil => intro k hk; simp [chunks3RgbaNorm] at hk
              | cons z zs => exact absurd rfl (h x y z zs)

/-! Claim theorems. -/

/-- C2: the normalize helper returns 0 for every input value whenever
`max ≤ min`; and whenever `max > min`, `normalize(min,min,max) = 0`,
`normalize(max,min,max) = 255`, and normalize is monotonic non-decreasing
in the input value holding `(min,max)` fixed, with the result always
clamped into `[0,255]`. -/
theorem C2_normalize_contract (value min max : ℕ) :
    (max ≤ min → normalize_u16 value min max = 0) ∧
    (min < max →
      normalize_u16 min min max = 0 ∧ normalize_u16 max min max = 255) ∧
    (∀ v1 v2 : ℕ, v1 ≤ v2 → normalize_u16 v1 min max ≤ normalize_u16 v2 min max) ∧
    normalize_u16 value min max ≤ 255 := by
  refine ⟨?_, ?_, ?_, normalize_u16_le_255 value min max⟩
  · intro h; simp [normalize_u16, h]
  · intro h; exact ⟨normalize_u16_at_min min max h, normalize_u16_at_max min max h⟩
  · exact fun v1 v2 h => normalize_u16_mono min max v1 v2 h

/-- Witness for C2 at the spec's 16-bit scenario bounds `(1000, 3000)` and
a degenerate pair `(10, 10)`. -/
theorem C2_witness :
    normalize_u16 7 10 10 = 0 ∧
    normalize_u16 1000 1000 3000 = 0 ∧
    normalize_u16 3000 1000 3000 = 255 ∧
    normalize_u16 1500 1000 3000 ≤ normalize_u16 2000 1000 3000 ∧
    normalize_u16 2000 1000 3000 ≤ 255 :=
  ⟨(C2_normalize_contract 7 10 10).1 (by decide),
   ((C2_normalize_contract 0 1000 3000).2.1 (by decide)).1,
   ((C2_normalize_contract 0 1000 3000).2.1 (by decide)).2,
   (C2_normalize_contract 0 1000 3000).2.2.1 1500 2000 (by decide),
   (C2_normalize_contract 2000 1000 3000).2.2.2⟩

/-- Fixture for the C4 witness: a decoded frame set holding exactly one
frame. -/
def c4_fixture : DecodedPixelData :=
  { number_of_frames := 1
    rows := 1
    columns := 1
    bits_allocated := 8
    photometric_interpretation := PhotometricInterpretation.Monochrome2
    planar_configuration := PlanarConfiguration.Standard
    to_vec_frame_u8 := fun _ => Except.ok [0]
    to_vec_frame_u16 := fun _ => Except.ok [0]
    to_dynamic_image := fun _ => Except.error "unsupported" }

/-- C4: for every decoded frame set and every `frame_idx` with
`frame_idx ≥ frame_count` (including equality), `convert_frame` returns an
error whose message identifies both the requested index and the available
frame count, and it never succeeds by clamping the index. -/
theorem C4_frame_out_of_range (decoded : DecodedPixelData) (frame_idx : ℕ)
    (h : decoded.number_of_frames ≤ frame_idx) :
    FrameImagePipeline.frame_to_handle decoded frame_idx =
      Except.error ("Requested frame " ++ toString frame_idx ++ ", but only "
        ++ toString decoded.number_of_frames ++ " frame(s) are available") ∧
    ∀ handle, FrameImagePipeline.frame_to_handle decoded frame_idx ≠
      Except.ok handle := by
  constructor
  · rw [FrameImagePipeline.frame_to_handle, if_pos h]
  · intro handle hcon
    rw [FrameImagePipeline.frame_to_handle, if_pos h] at hcon
    exact Except.noConfusion hcon

/-- Witness for C4: requesting frame index equal to the frame count. -/
theorem C4_witness :
    FrameImagePipeline.frame_to_handle c4_fixture 1 =
      Except.error "Requested frame 1, but only 1 frame(s) are available" :=
  (C4_frame_out_of_range c4_fixture 1 (by decide)).1

/-- C5: interleaved 8-bit RGB conversion fails with the malformed-buffer
error exactly when the buffer length is not a multiple of 3 (it is a total
function, so it cannot panic, and the error replaces any silent
truncation); when the length is a multiple of 3, each consecutive triplet
`(r,g,b)` maps to output pixel `(r,g,b,255)`. -/
theorem C5_interleaved_rgb_malformed (samples : List ℕ) :
    (¬ samples.length % 3 = 0 →
      rgb_interleaved_to_rgba samples =
        Except.error ("RGB buffer length " ++ toString samples.length
          ++ " is not divisible by 3")) ∧
    (samples.length % 3 = 0 →
      ∃ rgba, rgb_interleaved_to_rgba samples = Except.ok rgba ∧
        rgba.length = samples.length / 3 * 4 ∧
        ∀ i r g b, samples[3 * i]? = some r → samples[3 * i + 1]? = some g →
          samples[3 * i + 2]? = some b →
          rgba[4 * i]? = some r ∧ rgba[4 * i + 1]? = some g ∧
          rgba[4 * i + 2]? = some b ∧ rgba[4 * i + 3]? = some 255) := by
  constructor
  · intro h
    rw [rgb_interleaved_to_rgba, if_pos h]
  · intro h
    refine ⟨chunks3Rgba samples, by rw [rgb_interleaved_to_rgba, if_neg (by omega)], ?_, ?_⟩
    · rw [chunks3Rgba_length]; ring
    · intro i r g b hr hg hb
      have hlen : 3 * i + 2 < samples.length := by
        by_contra hcon
        rw [List.getElem?_eq_none (by omega)] at hb
        exact Option.noConfusion hb
      obtain ⟨h0, h1, h2, h3⟩ := chunks3Rgba_getElem samples i hlen
      exact ⟨h0.trans hr, h1.trans hg, h2.trans hb, h3⟩

/-- Witness for C5 at a length-2 buffer. -/
theorem C5_witness :
    rgb_interleaved_to_rgba [1, 2] =
      Except.error "RGB buffer length 2 is not divisible by 3" :=
  (C5_interleaved_rgb_malformed [1, 2]).1 (by decide)

/-- Fixture for C1: a 2x2 8-bit monochrome frame with samples
`[0, 64, 128, 255]` under a chosen photometric interpretation. -/
def mono8_fixture (interp : PhotometricInterpretation) : DecodedPixelData :=
  { number_of_frames := 1
    rows := 2
    columns := 2
    bits_allocated := 8
    photometric_interpretation := interp
    planar_configuration := PlanarConfiguration.Standard
    to_vec_frame_u8 := fun frame_idx =>
      if frame_idx = 0 then Except.ok [0, 64, 128, 255]
      else Except.error "frame index out of range"
    to_vec_frame_u16 := fun _ => Except.error "unused"
    to_dynamic_image := fun _ => Except.error "unsupported" }

/-- C1: for every monochrome frame with `bits_allocated ≤ 8`, each sample
`g` is used directly as the gray level with no rescaling — output pixel
`i` is `(g,g,g,255)` under Monochrome2 and `(255-g,255-g,255-g,255)`
under Monochrome1 — and the 2x2 frame `[0,64,128,255]` converts to the
spec's two concrete RGBA byte lists. -/
theorem C1_mono8_direct :
    (∀ (decoded : DecodedPixelData) (frame_idx : ℕ) (samples : List ℕ),
      decoded.bits_allocated ≤ 8 →
      decoded.to_vec_frame_u8 frame_idx = Except.ok samples →
      (decoded.photometric_interpretation = PhotometricInterpretation.Monochrome2 →
        ∃ handle,
          FrameImagePipeline.monochrome_to_handle decoded frame_idx =
            Except.ok handle ∧
          ∀ i g, samples[i]? = some g →
            handle.pixels[4 * i]? = some g ∧
            handle.pixels[4 * i + 1]? = some g ∧
            handle.pixels[4 * i + 2]? = some g ∧
            handle.pixels[4 * i + 3]? = some 255) ∧
      (decoded.photometric_interpretation = PhotometricInterpretation.Monochrome1 →
        ∃ handle,
          FrameImagePipeline.monochrome_to_handle decoded frame_idx =
            Except.ok handle ∧
          ∀ i g, samples[i]? = some g →
            handle.pixels[4 * i]? = some (255 - g) ∧
            handle.pixels[4 * i + 1]? = some (255 - g) ∧
            handle.pixels[4 * i + 2]? = some (255 - g) ∧
            handle.pixels[4 * i + 3]? = some 255)) ∧
    FrameImagePipeline.monochrome_to_handle
        (mono8_fixture PhotometricInterpretation.Monochrome2) 0 =
      Except.ok (Handle.from_rgba 2 2
        [0, 0, 0, 255, 64, 64, 64, 255, 128, 128, 128, 255, 255, 255, 255, 255]) ∧
    FrameImagePipeline.monochrome_to_handle
        (mono8_fixture PhotometricInterpretation.Monochrome1) 0 =
      Except.ok (Handle.from_rgba 2 2
        [255, 255, 255, 255, 191, 191, 191, 255, 127, 127, 127, 255, 0, 0, 0, 255]) := by
  refine ⟨?_, by rfl, by rfl⟩
  intro decoded frame_idx samples hbits hok
  constructor
  · intro hM2
    refine ⟨Handle.from_rgba decoded.columns decoded.rows
      (samples.flatMap fun gray => [gray, gray, gray, 255]), ?_, ?_⟩
    · rw [FrameImagePipeline.monochrome_to_handle, hM2, if_pos hbits, hok]
      rfl
    · intro i g hg
      have h0 := flatMap4_getElem samples (fun gray => [gray, gray, gray, 255])
        (fun _ => rfl) i 0 (by omega)
      have h1 := flatMap4_getElem samples (fun gray => [gray, gray, gray, 255])
        (fun _ => rfl) i 1 (by omega)
      have h2 := flatMap4_getElem samples (fun gray => [gray, gray, gray, 255])
        (fun _ => rfl) i 2 (by omega)
      have h3 := flatMap4_getElem samples (fun gray => [gray, gray, gray, 255])
        (fun _ => rfl) i 3 (by omega)
      rw [hg] at h0 h1 h2 h3
      rw [show 4 * i + 0 = 4 * i by omega] at h0
      exact ⟨h0, h1, h2, h3⟩
  · intro hM1
    refine ⟨Handle.from_rgba decoded.columns decoded.rows
      (samples.flatMap fun gray => [255 - gray, 255 - gray, 255 - gray, 255]), ?_, ?_⟩
    · rw [FrameImagePipeline.monochrome_to_handle, hM1, if_pos hbits, hok]
      rfl
    · intro i g hg
      have h0 := flatMap4_getElem samples
        (fun gray => [255 - gray, 255 - gray, 255 - gray, 255])
        (fun _ => rfl) i 0 (by omega)
      have h1 := flatMap4_getElem samples
        (fun gray => [255 - gray, 255 - gray, 255 - gray, 255])
        (fun _ => rfl) i 1 (by omega)
      have h2 := flatMap4_getElem samples
        (fun gray => [255 - gray, 255 - gray, 255 - gray, 255])
        (fun _ => rfl) i 2 (by omega)
      have h3 := flatMap4_getElem samples
        (fun gray => [255 - gray, 255 - gray, 255 - gray, 255])
        (fun _ => rfl) i 3 (by omega)
      rw [hg] at h0 h1 h2 h3
      rw [show 4 * i + 0 = 4 * i by omega] at h0
      exact ⟨h0, h1, h2, h3⟩

/-- Witness for C1: the Monochrome2 branch of the universal part at the
concrete fixture, pixel index 1 carrying sample 64. -/
theorem C1_witness :
    ∃ handle,
      FrameImagePipeline.monochrome_to_handle
          (mono8_fixture PhotometricInterpretation.Monochrome2) 0 =
        Except.ok handle ∧
      ∀ i g, ([0, 64, 128, 255] : List ℕ)[i]? = some g →
        handle.pixels[4 * i]? = some g ∧
        handle.pixels[4 * i + 1]? = some g ∧
        handle.pixels[4 * i + 2]? = some g ∧
        handle.pixels[4 * i + 3]? = some 255 :=
  (C1_mono8_direct.1 (mono8_fixture PhotometricInterpretation.Monochrome2) 0
    [0, 64, 128, 255] (by decide) rfl).1 rfl

/-- Decidable equality for `Except`, used to evaluate the pipeline on
concrete fixtures. -/
instance {ε α : Type} [DecidableEq ε] [DecidableEq α] :
    DecidableEq (Except ε α) := fun x y =>
  match x, y with
  | Except.error a, Except.error b =>
      if h : a = b then isTrue (by rw [h])
      else isFalse (by intro hc; injection hc with h2; exact h h2)
  | Except.ok a, Except.ok b =>
      if h : a = b then isTrue (by rw [h])
      else isFalse (by intro hc; injection hc with h2; exact h h2)
  | Except.error _, Except.ok _ => isFalse (fun hc => Except.noConfusion hc)
  | Except.ok _, Except.error _ => isFalse (fun hc => Except.noConfusion hc)

/-- Per-pixel color inversion of an RGBA byte list: each R, G and B byte
is replaced by its complement in 255, alpha is untouched. -/
def invertRgba : List ℕ → List ℕ
  | r :: g :: b :: a :: rest =>
      (255 - r) :: (255 - g) :: (255 - b) :: a :: invertRgba rest
  | l => l

/-- Color inversion of a bitmap handle. -/
def invertHandle (handle : Handle) : Handle :=
  { handle with pixels := invertRgba handle.pixels }

/-- Inverting a list of uniform gray quads complements each gray byte. -/
theorem invertRgba_flatMap (f : ℕ → ℕ) (s : List ℕ) :
    invertRgba (s.flatMap fun v => [f v, f v, f v, 255]) =
      s.flatMap fun v => [255 - f v, 255 - f v, 255 - f v, 255] := by
  induction s with
  | nil => rfl
  | cons a t ih =>
      show invertRgba (f a :: f a :: f a :: 255 ::
        (t.flatMap fun v => [f v, f v, f v, 255])) =
        (255 - f a) :: (255 - f a) :: (255 - f a) :: 255 ::
          (t.flatMap fun v => [255 - f v, 255 - f v, 255 - f v, 255])
      rw [invertRgba, ih]

/-- Inverting the 8-bit direct emit yields the 8-bit inverted emit. -/
theorem invertRgba_mono_emit (s : List ℕ) :
    invertRgba (mono_emit false s) = mono_emit true s := by
  show invertRgba (s.flatMap fun gray => [gray, gray, gray, 255]) =
    s.flatMap fun gray => [255 - gray, 255 - gray, 255 - gray, 255]
  exact invertRgba_flatMap (fun g => g) s

/-- Inverting the 16-bit direct emit yields the 16-bit inverted emit. -/
theorem invertRgba_mono_emit_norm (mn mx : ℕ) (s : List ℕ) :
    invertRgba (mono_emit_norm false mn mx s) = mono_emit_norm true mn mx s := by
  show invertRgba (s.flatMap fun v =>
      [normalize_u16 v mn mx, normalize_u16 v mn mx, normalize_u16 v mn mx, 255]) =
    s.flatMap fun v =>
      [255 - normalize_u16 v mn mx, 255 - normalize_u16 v mn mx,
       255 - normalize_u16 v mn mx, 255]
  exact invertRgba_flatMap (fun v => normalize_u16 v mn mx) s

/-- C6: converting any monochrome sample buffer (8-bit or 16-bit) as
Monochrome2 and then inverting every output color channel yields exactly
the result of converting the identical buffer as Monochrome1 (error
results coincide as well). -/
theorem C6_interpretation_swap (decoded : DecodedPixelData) (frame_idx : ℕ) :
    FrameImagePipeline.monochrome_to_handle
        { decoded with
          photometric_interpretation := PhotometricInterpretation.Monochrome1 }
        frame_idx =
      Except.map invertHandle
        (FrameImagePipeline.monochrome_to_handle
          { decoded with
            photometric_interpretation := PhotometricInterpretation.Monochrome2 }
          frame_idx) := by
  by_cases hb : decoded.bits_allocated ≤ 8
  · cases h8 : decoded.to_vec_frame_u8 frame_idx with
    | error e =>
        simp [FrameImagePipeline.monochrome_to_handle, hb, h8, Except.map]
    | ok s =>
        simp only [FrameImagePipeline.monochrome_to_handle, hb, if_true, h8,
          Except.map, invertHandle, Handle.from_rgba]
        rw [invertRgba_mono_emit]
  · cases h16 : decoded.to_vec_frame_u16 frame_idx with
    | error e =>
        simp [FrameImagePipeline.monochrome_to_handle, hb, h16, Except.map]
    | ok s =>
        simp only [FrameImagePipeline.monochrome_to_handle, hb, if_false, h16,
          Except.map, invertHandle, Handle.from_rgba]
        rw [invertRgba_mono_emit_norm]

/-- C9: `render_first_frame` surfaces a decode failure as `Err`; for a
decodable object with zero frames it returns `Ok(None)` (a valid empty
state, not an error); otherwise it converts frame index 0. -/
theorem C9_render_first_frame (object : DefaultDicomObject) :
    (∀ err, object.decode_pixel_data = Except.error err →
      FrameImagePipeline.render_first_frame object =
        Except.error ("Failed to decode pixel data: " ++ err)) ∧
    (∀ decoded, object.decode_pixel_data = Except.ok decoded →
      decoded.number_of_frames = 0 →
      FrameImagePipeline.render_first_frame object = Except.ok none) ∧
    (∀ decoded, object.decode_pixel_data = Except.ok decoded →
      decoded.number_of_frames ≠ 0 →
      FrameImagePipeline.render_first_frame object =
        (FrameImagePipeline.frame_to_handle decoded 0).map some) := by
  refine ⟨?_, ?_, ?_⟩
  · intro err h
    rw [FrameImagePipeline.render_first_frame, h]
  · intro decoded h h0
    rw [FrameImagePipeline.render_first_frame, h]
    simp [h0]
  · intro decoded h h0
    rw [FrameImagePipeline.render_first_frame, h]
    simp [h0]

/-- Fixture for the C9 witness: a decodable object holding zero frames. -/
def c9_zero_frame_data : DecodedPixelData :=
  { number_of_frames := 0
    rows := 0
    columns := 0
    bits_allocated := 8
    photometric_interpretation := PhotometricInterpretation.Monochrome2
    planar_configuration := PlanarConfiguration.Standard
    to_vec_frame_u8 := fun _ => Except.ok []
    to_vec_frame_u16 := fun _ => Except.ok []
    to_dynamic_image := fun _ => Except.error "unsupported" }

/-- Object wrapper for the C9 witness. -/
def c9_zero_frame_object : DefaultDicomObject :=
  ⟨Except.ok c9_zero_frame_data⟩

/-- Witness for C9: the zero-frame object renders to `Ok(None)`. -/
theorem C9_witness :
    FrameImagePipeline.render_first_frame c9_zero_frame_object = Except.ok none :=
  (C9_render_first_frame c9_zero_frame_object).2.1 c9_zero_frame_data rfl rfl

/-- Folding the min/max accumulator over elements all equal to `c` keeps
the accumulator at `(c, c)`. -/
theorem min_max_foldl_const (s : List ℕ) (c : ℕ) (hc : ∀ x ∈ s, x = c) :
    s.foldl
      (fun acc value =>
        match acc with
        | none => some (value, value)
        | some (mn, mx) => some (min mn value, max mx value))
      (some (c, c)) = some (c, c) := by
  induction s with
  | nil => rfl
  | cons a t ih =>
      have ha : a = c := hc a (by simp)
      rw [List.foldl_cons]
      simp only [ha, min_self, max_self]
      exact ih (fun x hx => hc x (by simp [hx]))

/-- The single min/max pass over a constant list yields `none` (empty) or
the degenerate pair `(c, c)`. -/
theorem min_max_u16_const (s : List ℕ) (c : ℕ) (hc : ∀ x ∈ s, x = c) :
    min_max_u16 s = none ∨ min_max_u16 s = some (c, c) := by
  cases s with
  | nil => exact Or.inl rfl
  | cons a t =>
      right
      have ha : a = c := hc a (by simp)
      rw [min_max_u16, List.foldl_cons]
      simp only [ha]
      exact min_max_foldl_const t c (fun x hx => hc x (by simp [hx]))

/-- Bytes of a flat-mapped list of constant quads `[x, x, x, w]`. -/
theorem flatMap_const_quad_bytes (x w : ℕ) (s : List ℕ) :
    ∀ k, k < 4 * s.length →
      (s.flatMap fun _ => [x, x, x, w])[k]? =
        some (if k % 4 = 3 then w else x) := by
  intro k hk
  obtain ⟨i, j, hj, rfl⟩ : ∃ i j, j < 4 ∧ k = 4 * i + j :=
    ⟨k / 4, k % 4, by omega, by omega⟩
  rw [flatMap4_getElem s (fun _ => [x, x, x, w]) (fun _ => rfl) i j hj,
    List.getElem?_eq_getElem (by omega : i < s.length),
    show (4 * i + j) % 4 = j by omega]
  interval_cases j <;> simp

/-- Fixture for the C3 claims: a 2x2 16-bit frame with constant samples
`[7, 7, 7, 7]` under a chosen photometric interpretation. -/
def mono16_const_fixture (interp : PhotometricInterpretation) : DecodedPixelData :=
  { number_of_frames := 1
    rows := 2
    columns := 2
    bits_allocated := 16
    photometric_interpretation := interp
    planar_configuration := PlanarConfiguration.Standard
    to_vec_frame_u8 := fun _ => Except.error "unused"
    to_vec_frame_u16 := fun frame_idx =>
      if frame_idx = 0 then Except.ok [7, 7, 7, 7]
      else Except.error "frame index out of range"
    to_dynamic_image := fun _ => Except.error "unsupported" }

/-- Counterexample to C3 as stated: the constant 16-bit frame `[7,7,7,7]`
under Monochrome1 converts with every R, G and B byte equal to 255, not
0 — the code applies the Monochrome1 inversion after the degenerate
`max ≤ min` rescale, turning 0 into 255. -/
theorem C3_counterexample :
    FrameImagePipeline.monochrome_to_handle
        (mono16_const_fixture PhotometricInterpretation.Monochrome1) 0 =
      Except.ok (Handle.from_rgba 2 2
        [255, 255, 255, 255, 255, 255, 255, 255,
         255, 255, 255, 255, 255, 255, 255, 255]) ∧
    (Handle.from_rgba 2 2
        [255, 255, 255, 255, 255, 255, 255, 255,
         255, 255, 255, 255, 255, 255, 255, 255]).pixels[0]? ≠ some 0 := by
  exact ⟨by rfl, by decide⟩

/-- C3 (amended): for every monochrome frame with `bits_allocated > 8`
whose samples are all equal (or empty), conversion produces every R, G
and B output byte equal to 0 under Monochrome2, while under Monochrome1
the post-rescale inversion turns every output byte into 255; in
particular the constant 16-bit frame `[7,7,7,7]` converts to all-zero
gray RGBA under Monochrome2. -/
theorem C3_amended_constant_frame :
    (∀ (decoded : DecodedPixelData) (frame_idx : ℕ) (samples : List ℕ) (c : ℕ),
      ¬ decoded.bits_allocated ≤ 8 →
      decoded.to_vec_frame_u16 frame_idx = Except.ok samples →
      (∀ x ∈ samples, x = c) →
      ∃ handle,
        FrameImagePipeline.monochrome_to_handle decoded frame_idx =
          Except.ok handle ∧
        (decoded.photometric_interpretation = PhotometricInterpretation.Monochrome2 →
          ∀ k, k < handle.pixels.length → k % 4 ≠ 3 →
            handle.pixels[k]? = some 0) ∧
        (decoded.photometric_interpretation = PhotometricInterpretation.Monochrome1 →
          ∀ k, k < handle.pixels.length → handle.pixels[k]? = some 255)) ∧
    FrameImagePipeline.monochrome_to_handle
        (mono16_const_fixture PhotometricInterpretation.Monochrome2) 0 =
      Except.ok (Handle.from_rgba 2 2
        [0, 0, 0, 255, 0, 0, 0, 255, 0, 0, 0, 255, 0, 0, 0, 255]) := by
  refine ⟨?_, by rfl⟩
  intro decoded frame_idx samples c hbits hok hconst
  have hmm : ((min_max_u16 samples).getD (0, 0)).2 ≤
      ((min_max_u16 samples).getD (0, 0)).1 := by
    rcases min_max_u16_const samples c hconst with h | h <;> simp [h]
  have hnorm : ∀ v, normalize_u16 v ((min_max_u16 samples).getD (0, 0)).1
      ((min_max_u16 samples).getD (0, 0)).2 = 0 := by
    intro v
    rw [normalize_u16_eq, if_pos hmm]
  cases hM : decoded.photometric_interpretation with
  | Monochrome1 =>
      refine ⟨Handle.from_rgba decoded.columns decoded.rows
        (samples.flatMap fun _ => [255, 255, 255, 255]), ?_, ?_, ?_⟩
      · rw [FrameImagePipeline.monochrome_to_handle, hM, if_neg hbits, hok]
        show Except.ok (Handle.from_rgba decoded.columns decoded.rows
          (mono_emit_norm true ((min_max_u16 samples).getD (0, 0)).1
            ((min_max_u16 samples).getD (0, 0)).2 samples)) = _
        rw [mono_emit_norm_const true _ _ samples hmm]
        simp
      · intro h2; exact absurd h2 (by decide)
      · intro _ k hk
        simp only [Handle.from_rgba] at hk ⊢
        have hb := flatMap_const_quad_bytes 255 255 samples k
          (by rwa [flatMap4_length samples
            (fun _ => ([255, 255, 255, 255] : List ℕ)) (fun _ => rfl)] at hk)
        rw [hb]
        simp
  | Monochrome2 =>
      refine ⟨Handle.from_rgba decoded.columns decoded.rows
        (samples.flatMap fun _ => [0, 0, 0, 255]), ?_, ?_, ?_⟩
      · rw [FrameImagePipeline.monochrome_to_handle, hM, if_neg hbits, hok]
        show Except.ok (Handle.from_rgba decoded.columns decoded.rows
          (mono_emit_norm false ((min_max_u16 samples).getD (0, 0)).1
            ((min_max_u16 samples).getD (0, 0)).2 samples)) = _
        rw [mono_emit_norm_const false _ _ samples hmm]
        simp
      · intro _ k hk hk4
        simp only [Handle.from_rgba] at hk ⊢
        have hb := flatMap_const_quad_bytes 0 255 samples k
          (by rwa [flatMap4_length samples
            (fun _ => ([0, 0, 0, 255] : List ℕ)) (fun _ => rfl)] at hk)
        rw [hb, if_neg hk4]
      · intro h2; exact absurd h2 (by decide)
  | Rgb =>
      refine ⟨Handle.from_rgba decoded.columns decoded.rows
        (samples.flatMap fun _ => [0, 0, 0, 255]), ?_, ?_, ?_⟩
      · rw [FrameImagePipeline.monochrome_to_handle, hM, if_neg hbits, hok]
        show Except.ok (Handle.from_rgba decoded.columns decoded.rows
          (mono_emit_norm false ((min_max_u16 samples).getD (0, 0)).1
            ((min_max_u16 samples).getD (0, 0)).2 samples)) = _
        rw [mono_emit_norm_const false _ _ samples hmm]
        simp
      · intro h2; exact absurd h2 (by decide)
      · intro h2; exact absurd h2 (by decide)
  | Other name =>
      refine ⟨Handle.from_rgba decoded.columns decoded.rows
        (samples.flatMap fun _ => [0, 0, 0, 255]), ?_, ?_, ?_⟩
      · rw [FrameImagePipeline.monochrome_to_handle, hM, if_neg hbits, hok]
        show Except.ok (Handle.from_rgba decoded.columns decoded.rows
          (mono_emit_norm false ((min_max_u16 samples).getD (0, 0)).1
            ((min_max_u16 samples).getD (0, 0)).2 samples)) = _
        rw [mono_emit_norm_const false _ _ samples hmm]
        simp
      · intro h2; exact PhotometricInterpretation.noConfusion h2
      · intro h2; exact PhotometricInterpretation.noConfusion h2

/-- Witness for C3 (amended) at the Monochrome2 constant fixture. -/
theorem C3_witness :
    ∃ handle,
      FrameImagePipeline.monochrome_to_handle
          (mono16_const_fixture PhotometricInterpretation.Monochrome2) 0 =
        Except.ok handle ∧
      ((mono16_const_fixture PhotometricInterpretation.Monochrome2).photometric_interpretation =
          PhotometricInterpretation.Monochrome2 →
        ∀ k, k < handle.pixels.length → k % 4 ≠ 3 →
          handle.pixels[k]? = some 0) ∧
      ((mono16_const_fixture PhotometricInterpretation.Monochrome2).photometric_interpretation =
          PhotometricInterpretation.Monochrome1 →
        ∀ k, k < handle.pixels.length → handle.pixels[k]? = some 255) :=
  C3_amended_constant_frame.1
    (mono16_const_fixture PhotometricInterpretation.Monochrome2) 0
    [7, 7, 7, 7] 7 (by decide) rfl (by decide)

/-- Shape of a successful interleaved-8-bit conversion. -/
theorem rgb_interleaved_ok_shape (samples rgba : List ℕ)
    (h : rgb_interleaved_to_rgba samples = Except.ok rgba) :
    rgba.length = 4 * (samples.length / 3) ∧ alpha_opaque rgba := by
  rw [rgb_interleaved_to_rgba] at h
  by_cases hm : ¬ samples.length % 3 = 0
  · rw [if_pos hm] at h
    exact Except.noConfusion h
  · rw [if_neg hm] at h
    injection h with h2
    rw [← h2]
    exact ⟨chunks3Rgba_length samples, chunks3Rgba_alpha samples⟩

/-- Shape of a successful interleaved-16-bit conversion. -/
theorem rgb_interleaved_u16_ok_shape (samples rgba : List ℕ)
    (h : rgb_interleaved_u16_to_rgba samples = Except.ok rgba) :
    rgba.length = 4 * (samples.length / 3) ∧ alpha_opaque rgba := by
  simp only [rgb_interleaved_u16_to_rgba] at h
  by_cases hm : ¬ samples.length % 3 = 0
  · rw [if_pos hm] at h
    exact Except.noConfusion h
  · rw [if_neg hm] at h
    injection h with h2
    rw [← h2]
    exact ⟨chunks3RgbaNorm_length _ _ _ samples, chunks3RgbaNorm_alpha _ _ _ samples⟩

/-- Shape of a successful planar-8-bit conversion. -/
theorem rgb_planar_u8_ok_shape (samples : List ℕ) (pixel_count : ℕ)
    (rgba : List ℕ)
    (h : rgb_planar_to_rgba_u8 samples pixel_count = Except.ok rgba) :
    rgba.length = 4 * pixel_count ∧ alpha_opaque rgba := by
  simp only [rgb_planar_to_rgba_u8] at h
  by_cases h1 : samples.length < pixel_count * 3
  · rw [if_pos h1] at h
    exact Except.noConfusion h
  · rw [if_neg h1] at h
    by_cases h2 : ((samples.drop pixel_count).drop pixel_count).length < pixel_count
    · rw [if_pos h2] at h
      exact Except.noConfusion h
    · rw [if_neg h2] at h
      injection h with h3
      rw [← h3]
      exact ⟨planar_emit_length _ _ _ _, planar_emit_alpha _ _ _ _⟩

/-- Shape of a successful planar-16-bit conversion. -/
theorem rgb_planar_u16_ok_shape (samples : List ℕ) (pixel_count : ℕ)
    (rgba : List ℕ)
    (h : rgb_planar_u16_to_rgba samples pixel_count = Except.ok rgba) :
    rgba.length = 4 * pixel_count ∧ alpha_opaque rgba := by
  simp only [rgb_planar_u16_to_rgba] at h
  by_cases h1 : samples.length < pixel_count * 3
  · rw [if_pos h1] at h
    exact Except.noConfusion h
  · rw [if_neg h1] at h
    by_cases h2 : ((samples.drop pixel_count).drop pixel_count).length < pixel_count
    · rw [if_pos h2] at h
      exact Except.noConfusion h
    · rw [if_neg h2] at h
      injection h with h3
      rw [← h3]
      exact ⟨planar_emit_norm_length _ _ _ _ _ _ _,
        planar_emit_norm_alpha _ _ _ _ _ _ _⟩

/-- Shape of a successful monochrome conversion under the decoder length
invariant (`rows * columns` samples per monochrome frame). -/
theorem monochrome_ok_shape (decoded : DecodedPixelData) (frame_idx : ℕ)
    (handle : Handle)
    (h8 : ∀ samples, decoded.to_vec_frame_u8 frame_idx = Except.ok samples →
      samples.length = decoded.rows * decoded.columns)
    (h16 : ∀ samples, decoded.to_vec_frame_u16 frame_idx = Except.ok samples →
      samples.length = decoded.rows * decoded.columns)
    (hok : FrameImagePipeline.monochrome_to_handle decoded frame_idx =
      Except.ok handle) :
    handle.width = decoded.columns ∧ handle.height = decoded.rows ∧
    handle.pixels.length = handle.width * handle.height * 4 ∧
    alpha_opaque handle.pixels := by
  simp only [FrameImagePipeline.monochrome_to_handle] at hok
  by_cases hb : decoded.bits_allocated ≤ 8
  · rw [if_pos hb] at hok
    cases hs : decoded.to_vec_frame_u8 frame_idx with
    | error e =>
        simp only [hs] at hok
        exact Except.noConfusion hok
    | ok s =>
        simp only [hs] at hok
        injection hok with h2
        subst h2
        refine ⟨rfl, rfl, ?_, ?_⟩
        · show (mono_emit _ s).length = decoded.columns * decoded.rows * 4
          rw [mono_emit_length, h8 s hs]
          ring
        · exact mono_emit_alpha _ s
  · rw [if_neg hb] at hok
    cases hs : decoded.to_vec_frame_u16 frame_idx with
    | error e =>
        simp only [hs] at hok
        exact Except.noConfusion hok
    | ok s =>
        simp only [hs] at hok
        injection hok with h2
        subst h2
        refine ⟨rfl, rfl, ?_, ?_⟩
        · show (mono_emit_norm _ _ _ s).length =
            decoded.columns * decoded.rows * 4
          rw [mono_emit_norm_length, h16 s hs]
          ring
        · exact mono_emit_norm_alpha _ _ _ s

/-- Shape of a successful RGB conversion under the decoder length
invariant (`rows * columns * 3` samples per RGB frame). -/
theorem rgb_ok_shape (decoded : DecodedPixelData) (frame_idx : ℕ)
    (handle : Handle)
    (h8 : ∀ samples, decoded.to_vec_frame_u8 frame_idx = Except.ok samples →
      samples.length = decoded.rows * decoded.columns * 3)
    (h16 : ∀ samples, decoded.to_vec_frame_u16 frame_idx = Except.ok samples →
      samples.length = decoded.rows * decoded.columns * 3)
    (hok : FrameImagePipeline.rgb_to_handle decoded frame_idx =
      Except.ok handle) :
    handle.width = decoded.columns ∧ handle.height = decoded.rows ∧
    handle.pixels.length = handle.width * handle.height * 4 ∧
    alpha_opaque handle.pixels := by
  simp only [FrameImagePipeline.rgb_to_handle] at hok
  by_cases hb : decoded.bits_allocated ≤ 8
  · rw [if_pos hb] at hok
    cases hs : decoded.to_vec_frame_u8 frame_idx with
    | error e =>
        simp only [hs] at hok
        exact Except.noConfusion hok
    | ok s =>
        simp only [hs] at hok
        cases hpc : decoded.planar_configuration with
        | Standard =>
            simp only [hpc] at hok
            cases hr : rgb_interleaved_to_rgba s with
            | error e =>
                simp only [hr, Except.map] at hok
                exact Except.noConfusion hok
            | ok rgba =>
                simp only [hr, Except.map] at hok
                injection hok with h2
                subst h2
                obtain ⟨hlen, halpha⟩ := rgb_interleaved_ok_shape s rgba hr
                refine ⟨rfl, rfl, ?_, halpha⟩
                show rgba.length = decoded.columns * decoded.rows * 4
                rw [hlen, h8 s hs, Nat.mul_div_cancel _ (by omega : 0 < 3)]
                ring
        | PixelFirst =>
            simp only [hpc] at hok
            cases hr : rgb_planar_to_rgba_u8 s (decoded.columns * decoded.rows) with
            | error e =>
                simp only [hr, Except.map] at hok
                exact Except.noConfusion hok
            | ok rgba =>
                simp only [hr, Except.map] at hok
                injection hok with h2
                subst h2
                obtain ⟨hlen, halpha⟩ :=
                  rgb_planar_u8_ok_shape s (decoded.columns * decoded.rows) rgba hr
                refine ⟨rfl, rfl, ?_, halpha⟩
                show rgba.length = decoded.columns * decoded.rows * 4
                rw [hlen]
                ring
  · rw [if_neg hb] at hok
    cases hs : decoded.to_vec_frame_u16 frame_idx with
    | error e =>
        simp only [hs] at hok
        exact Except.noConfusion hok
    | ok s =>
        simp only [hs] at hok
        cases hpc : decoded.planar_configuration with
        | Standard =>
            simp only [hpc] at hok
            cases hr : rgb_interleaved_u16_to_rgba s with
            | error e =>
                simp only [hr, Except.map] at hok
                exact Except.noConfusion hok
            | ok rgba =>
                simp only [hr, Except.map] at hok
                injection hok with h2
                subst h2
                obtain ⟨hlen, halpha⟩ := rgb_interleaved_u16_ok_shape s rgba hr
                refine ⟨rfl, rfl, ?_, halpha⟩
                show rgba.length = decoded.columns * decoded.rows * 4
                rw [hlen, h16 s hs, Nat.mul_div_cancel _ (by omega : 0 < 3)]
                ring
        | PixelFirst =>
            simp only [hpc] at hok
            cases hr : rgb_planar_u16_to_rgba s (decoded.columns * decoded.rows) with
            | error e =>
                simp only [hr, Except.map] at hok
                exact Except.noConfusion hok
            | ok rgba =>
                simp only [hr, Except.map] at hok
                injection hok with h2
                subst h2
                obtain ⟨hlen, halpha⟩ :=
                  rgb_planar_u16_ok_shape s (decoded.columns * decoded.rows) rgba hr
                refine ⟨rfl, rfl, ?_, halpha⟩
                show rgba.length = decoded.columns * decoded.rows * 4
                rw [hlen]
                ring

/-- C8: every successful conversion through the monochrome or RGB path,
under the decoder invariant that a materialized frame holds
`rows * columns` samples per color component, returns a bitmap whose byte
sequence has length exactly `width * height * 4` (`width` the columns,
`height` the rows of the decoded frame set) and whose every fourth byte
(the alpha channel of every pixel) equals 255. -/
theorem C8_output_contract (decoded : DecodedPixelData) (frame_idx : ℕ)
    (handle : Handle)
    (hinterp : decoded.photometric_interpretation.is_monochrome = true ∨
      decoded.photometric_interpretation = PhotometricInterpretation.Rgb)
    (h8 : ∀ samples, decoded.to_vec_frame_u8 frame_idx = Except.ok samples →
      samples.length = decoded.rows * decoded.columns *
        (if decoded.photometric_interpretation = PhotometricInterpretation.Rgb
          then 3 else 1))
    (h16 : ∀ samples, decoded.to_vec_frame_u16 frame_idx = Except.ok samples →
      samples.length = decoded.rows * decoded.columns *
        (if decoded.photometric_interpretation = PhotometricInterpretation.Rgb
          then 3 else 1))
    (hok : FrameImagePipeline.frame_to_handle decoded frame_idx =
      Except.ok handle) :
    handle.width = decoded.columns ∧ handle.height = decoded.rows ∧
    handle.pixels.length = handle.width * handle.height * 4 ∧
    alpha_opaque handle.pixels := by
  rw [FrameImagePipeline.frame_to_handle] at hok
  by_cases hidx : decoded.number_of_frames ≤ frame_idx
  · rw [if_pos hidx] at hok
    exact Except.noConfusion hok
  · rw [if_neg hidx] at hok
    by_cases hmono : decoded.photometric_interpretation.is_monochrome = true
    · rw [if_pos hmono] at hok
      have hnot : ¬ decoded.photometric_interpretation =
          PhotometricInterpretation.Rgb := by
        intro hr
        rw [hr] at hmono
        exact Bool.noConfusion hmono
      refine monochrome_ok_shape decoded frame_idx handle ?_ ?_ hok
      · intro s hs
        have := h8 s hs
        rwa [if_neg hnot, Nat.mul_one] at this
      · intro s hs
        have := h16 s hs
        rwa [if_neg hnot, Nat.mul_one] at this
    · rw [if_neg hmono] at hok
      rcases hinterp with hm | hr
      · exact absurd hm hmono
      · rw [hr] at hok
        have hok2 : FrameImagePipeline.rgb_to_handle decoded frame_idx =
            Except.ok handle := hok
        refine rgb_ok_shape decoded frame_idx handle ?_ ?_ hok2
        · intro s hs
          have := h8 s hs
          rwa [if_pos hr] at this
        · intro s hs
          have := h16 s hs
          rwa [if_pos hr] at this

/-- Fixture for the C8 witness: a 1x1 8-bit Monochrome2 frame `[5]`. -/
def c8_fixture : DecodedPixelData :=
  { number_of_frames := 1
    rows := 1
    columns := 1
    bits_allocated := 8
    photometric_interpretation := PhotometricInterpretation.Monochrome2
    planar_configuration := PlanarConfiguration.Standard
    to_vec_frame_u8 := fun _ => Except.ok [5]
    to_vec_frame_u16 := fun _ => Except.error "unused"
    to_dynamic_image := fun _ => Except.error "unsupported" }

/-- Witness for C8 at the 1x1 fixture. -/
theorem C8_witness :
    (Handle.from_rgba 1 1 [5, 5, 5, 255]).pixels.length =
      (Handle.from_rgba 1 1 [5, 5, 5, 255]).width *
        (Handle.from_rgba 1 1 [5, 5, 5, 255]).height * 4 ∧
    alpha_opaque (Handle.from_rgba 1 1 [5, 5, 5, 255]).pixels :=
  ⟨(C8_output_contract c8_fixture 0 (Handle.from_rgba 1 1 [5, 5, 5, 255])
      (Or.inl rfl)
      (fun s hs => by
        simp only [c8_fixture] at hs
        injection hs with h2
        rw [← h2]
        rfl)
      (fun s hs => by
        simp only [c8_fixture] at hs
        exact Except.noConfusion hs)
      (by rfl)).2.2.1,
   (C8_output_contract c8_fixture 0 (Handle.from_rgba 1 1 [5, 5, 5, 255])
      (Or.inl rfl)
      (fun s hs => by
        simp only [c8_fixture] at hs
        injection hs with h2
        rw [← h2]
        rfl)
      (fun s hs => by
        simp only [c8_fixture] at hs
        exact Except.noConfusion hs)
      (by rfl)).2.2.2⟩

/-- A planar conversion succeeds exactly when the guards pass; the
8-bit success value, explicitly. -/
theorem rgb_planar_u8_ok (samples : List ℕ) (pixel_count : ℕ)
    (h : pixel_count * 3 ≤ samples.length) :
    rgb_planar_to_rgba_u8 samples pixel_count =
      Except.ok (planar_emit (samples.take pixel_count)
        ((samples.drop pixel_count).take pixel_count)
        ((samples.drop pixel_count).drop pixel_count) pixel_count) := by
  simp only [rgb_planar_to_rgba_u8]
  rw [if_neg (by omega : ¬ samples.length < pixel_count * 3),
    if_neg (by simp only [List.length_drop]; omega)]

/-- The 16-bit planar success value, explicitly: note the blue range is
taken over the whole remainder of the buffer after the first two planes. -/
theorem rgb_planar_u16_ok (samples : List ℕ) (pixel_count : ℕ)
    (h : pixel_count * 3 ≤ samples.length) :
    rgb_planar_u16_to_rgba samples pixel_count =
      Except.ok (planar_emit_norm (samples.take pixel_count)
        ((samples.drop pixel_count).take pixel_count)
        ((samples.drop pixel_count).drop pixel_count)
        ((min_max_u16 (samples.take pixel_count)).getD (0, 0))
        ((min_max_u16 ((samples.drop pixel_count).take pixel_count)).getD (0, 0))
        ((min_max_u16 ((samples.drop pixel_count).drop pixel_count)).getD (0, 0))
        pixel_count) := by
  simp only [rgb_planar_u16_to_rgba]
  rw [if_neg (by omega : ¬ samples.length < pixel_count * 3),
    if_neg (by simp only [List.length_drop]; omega)]

/-- Pointwise congruence for the planar-8-bit emit loop. -/
theorem planar_emit_congr (rp rp2 gp gp2 bp bp2 : List ℕ) (pc : ℕ)
    (hr : ∀ idx, idx < pc → rp.getD idx 0 = rp2.getD idx 0)
    (hg : ∀ idx, idx < pc → gp.getD idx 0 = gp2.getD idx 0)
    (hb : ∀ idx, idx < pc → bp.getD idx 0 = bp2.getD idx 0) :
    planar_emit rp gp bp pc = planar_emit rp2 gp2 bp2 pc := by
  rw [planar_emit, planar_emit]
  refine flatMap_congr_mem _ _ _ (fun idx hidx => ?_)
  have hlt := List.mem_range.mp hidx
  rw [hr idx hlt, hg idx hlt, hb idx hlt]

/-- Counterexample to C7 as stated: on the planar buffer
`[0, 1, 0, 1, 0, 1]` with two pixels, the 8-bit conversion emits the raw
plane values while the 16-bit conversion rescales each channel over its
plane min/max, so the two outputs differ. -/
theorem C7_counterexample :
    rgb_planar_to_rgba_u8 [0, 1, 0, 1, 0, 1] 2 =
      Except.ok [0, 0, 0, 255, 1, 1, 1, 255] ∧
    rgb_planar_u16_to_rgba [0, 1, 0, 1, 0, 1] 2 =
      Except.ok [0, 0, 0, 255, 255, 255, 255, 255] ∧
    rgb_planar_to_rgba_u8 [0, 1, 0, 1, 0, 1] 2 ≠
      rgb_planar_u16_to_rgba [0, 1, 0, 1, 0, 1] 2 := by
  refine ⟨by decide, ?_, ?_⟩
  · simp only [rgb_planar_u16_to_rgba, planar_emit_norm, normalize_u16_eq]
    decide
  · simp only [rgb_planar_u16_to_rgba, planar_emit_norm, normalize_u16_eq]
    decide

/-- C7 (amended): for planar buffers holding at least
`3 * pixel_count` samples, both conversions succeed and pair by index
with alpha 255, but the 8-bit path emits pixel `idx` as
`(R[idx], G[idx], B[idx], 255)` while the 16-bit path emits the
per-channel min/max normalization of those values (the blue min/max
ranging over the whole remainder after the first two planes); the two
agree pixel-for-pixel only when that normalization is the identity. -/
theorem C7_planar_8_vs_16 (samples : List ℕ) (pixel_count : ℕ)
    (h : pixel_count * 3 ≤ samples.length) :
    ∃ rgba8 rgba16,
      rgb_planar_to_rgba_u8 samples pixel_count = Except.ok rgba8 ∧
      rgb_planar_u16_to_rgba samples pixel_count = Except.ok rgba16 ∧
      ∀ idx, idx < pixel_count →
        (rgba8[4 * idx]? = some (samples.getD idx 0) ∧
         rgba8[4 * idx + 1]? = some (samples.getD (pixel_count + idx) 0) ∧
         rgba8[4 * idx + 2]? =
           some (samples.getD (pixel_count + (pixel_count + idx)) 0) ∧
         rgba8[4 * idx + 3]? = some 255) ∧
        (rgba16[4 * idx]? =
           some (normalize_u16 (samples.getD idx 0)
             ((min_max_u16 (samples.take pixel_count)).getD (0, 0)).1
             ((min_max_u16 (samples.take pixel_count)).getD (0, 0)).2) ∧
         rgba16[4 * idx + 1]? =
           some (normalize_u16 (samples.getD (pixel_count + idx) 0)
             ((min_max_u16 ((samples.drop pixel_count).take pixel_count)).getD
               (0, 0)).1
             ((min_max_u16 ((samples.drop pixel_count).take pixel_count)).getD
               (0, 0)).2) ∧
         rgba16[4 * idx + 2]? =
           some (normalize_u16 (samples.getD (pixel_count + (pixel_count + idx)) 0)
             ((min_max_u16 ((samples.drop pixel_count).drop pixel_count)).getD
               (0, 0)).1
             ((min_max_u16 ((samples.drop pixel_count).drop pixel_count)).getD
               (0, 0)).2) ∧
         rgba16[4 * idx + 3]? = some 255) := by
  refine ⟨_, _, rgb_planar_u8_ok samples pixel_count h,
    rgb_planar_u16_ok samples pixel_count h, ?_⟩
  intro idx hidx
  have hr : (samples.take pixel_count).getD idx 0 = samples.getD idx 0 := by
    rw [List.getD_eq_getElem?_getD, List.getD_eq_getElem?_getD,
      getElem?_take_lt _ _ _ hidx]
  have hg : ((samples.drop pixel_count).take pixel_count).getD idx 0 =
      samples.getD (pixel_count + idx) 0 := by
    rw [List.getD_eq_getElem?_getD, List.getD_eq_getElem?_getD,
      getElem?_take_lt _ _ _ hidx, List.getElem?_drop]
  have hb : ((samples.drop pixel_count).drop pixel_count).getD idx 0 =
      samples.getD (pixel_count + (pixel_count + idx)) 0 := by
    rw [List.getD_eq_getElem?_getD, List.getD_eq_getElem?_getD,
      List.getElem?_drop, List.getElem?_drop]
  obtain ⟨e0, e1, e2, e3⟩ := planar_emit_getElem (samples.take pixel_count)
    ((samples.drop pixel_count).take pixel_count)
    ((samples.drop pixel_count).drop pixel_count) pixel_count idx hidx
  obtain ⟨n0, n1, n2, n3⟩ := planar_emit_norm_getElem (samples.take pixel_count)
    ((samples.drop pixel_count).take pixel_count)
    ((samples.drop pixel_count).drop pixel_count)
    ((min_max_u16 (samples.take pixel_count)).getD (0, 0))
    ((min_max_u16 ((samples.drop pixel_count).take pixel_count)).getD (0, 0))
    ((min_max_u16 ((samples.drop pixel_count).drop pixel_count)).getD (0, 0))
    pixel_count idx hidx
  rw [hr] at e0 n0
  rw [hg] at e1 n1
  rw [hb] at e2 n2
  exact ⟨⟨e0, e1, e2, e3⟩, n0, n1, n2, n3⟩

/-- Witness for C7 (amended) at a one-pixel planar buffer. -/
theorem C7_witness :
    ∃ rgba8 rgba16,
      rgb_planar_to_rgba_u8 [3, 4, 5] 1 = Except.ok rgba8 ∧
      rgb_planar_u16_to_rgba [3, 4, 5] 1 = Except.ok rgba16 ∧
      ∀ idx, idx < 1 →
        (rgba8[4 * idx]? = some (([3, 4, 5] : List ℕ).getD idx 0) ∧
         rgba8[4 * idx + 1]? = some (([3, 4, 5] : List ℕ).getD (1 + idx) 0) ∧
         rgba8[4 * idx + 2]? =
           some (([3, 4, 5] : List ℕ).getD (1 + (1 + idx)) 0) ∧
         rgba8[4 * idx + 3]? = some 255) ∧
        (rgba16[4 * idx]? =
           some (normalize_u16 (([3, 4, 5] : List ℕ).getD idx 0)
             ((min_max_u16 (([3, 4, 5] : List ℕ).take 1)).getD (0, 0)).1
             ((min_max_u16 (([3, 4, 5] : List ℕ).take 1)).getD (0, 0)).2) ∧
         rgba16[4 * idx + 1]? =
           some (normalize_u16 (([3, 4, 5] : List ℕ).getD (1 + idx) 0)
             ((min_max_u16 ((([3, 4, 5] : List ℕ).drop 1).take 1)).getD
               (0, 0)).1
             ((min_max_u16 ((([3, 4, 5] : List ℕ).drop 1).take 1)).getD
               (0, 0)).2) ∧
         rgba16[4 * idx + 2]? =
           some (normalize_u16 (([3, 4, 5] : List ℕ).getD (1 + (1 + idx)) 0)
             ((min_max_u16 ((([3, 4, 5] : List ℕ).drop 1).drop 1)).getD
               (0, 0)).1
             ((min_max_u16 ((([3, 4, 5] : List ℕ).drop 1).drop 1)).getD
               (0, 0)).2) ∧
         rgba16[4 * idx + 3]? = some 255) :=
  C7_planar_8_vs_16 [3, 4, 5] 1 (by decide)

/-- Counterexample to C10 as stated: in the 16-bit planar conversion a
trailing sample beyond `3 * pixel_count` is not ignored — it feeds the
blue channel min/max and changes the emitted pixel. -/
theorem C10_counterexample :
    rgb_planar_u16_to_rgba [0, 0, 10, 5] 1 = Except.ok [0, 0, 255, 255] ∧
    rgb_planar_u16_to_rgba ([0, 0, 10, 5].take (1 * 3)) 1 =
      Except.ok [0, 0, 0, 255] ∧
    rgb_planar_u16_to_rgba [0, 0, 10, 5] 1 ≠
      rgb_planar_u16_to_rgba ([0, 0, 10, 5].take (1 * 3)) 1 := by
  refine ⟨?_, ?_, ?_⟩ <;>
    · simp only [rgb_planar_u16_to_rgba, planar_emit_norm, normalize_u16_eq]
      decide

/-- C10 (amended): planar RGB conversion (8-bit and 16-bit) fails exactly
when the buffer holds fewer than `3 * pixel_count` samples; the 8-bit
path reads only the first `3 * pixel_count` samples (trailing samples are
ignored), while the 16-bit path feeds any trailing samples into the blue
channel min/max, so its output can depend on them. -/
theorem C10_planar_length_contract (samples : List ℕ) (pixel_count : ℕ) :
    ((∃ rgba, rgb_planar_to_rgba_u8 samples pixel_count = Except.ok rgba) ↔
      pixel_count * 3 ≤ samples.length) ∧
    ((∃ rgba, rgb_planar_u16_to_rgba samples pixel_count = Except.ok rgba) ↔
      pixel_count * 3 ≤ samples.length) ∧
    (pixel_count * 3 ≤ samples.length →
      rgb_planar_to_rgba_u8 samples pixel_count =
        rgb_planar_to_rgba_u8 (samples.take (pixel_count * 3)) pixel_count) := by
  refine ⟨⟨?_, ?_⟩, ⟨?_, ?_⟩, ?_⟩
  · rintro ⟨rgba, hr⟩
    by_contra hlen
    rw [rgb_planar_to_rgba_u8, if_pos (by omega)] at hr
    exact Except.noConfusion hr
  · intro hlen
    exact ⟨_, rgb_planar_u8_ok samples pixel_count hlen⟩
  · rintro ⟨rgba, hr⟩
    by_contra hlen
    rw [rgb_planar_u16_to_rgba, if_pos (by omega)] at hr
    exact Except.noConfusion hr
  · intro hlen
    exact ⟨_, rgb_planar_u16_ok samples pixel_count hlen⟩
  · intro hlen
    have hlen2 : pixel_count * 3 ≤ (samples.take (pixel_count * 3)).length := by
      simp only [List.length_take]
      omega
    rw [rgb_planar_u8_ok samples pixel_count hlen,
      rgb_planar_u8_ok (samples.take (pixel_count * 3)) pixel_count hlen2]
    refine congrArg Except.ok (planar_emit_congr _ _ _ _ _ _ pixel_count ?_ ?_ ?_)
    · intro idx hidx
      rw [List.getD_eq_getElem?_getD, List.getD_eq_getElem?_getD,
        getElem?_take_lt _ _ _ hidx, getElem?_take_lt _ _ _ hidx,
        getElem?_take_lt _ _ _ (by omega : idx < pixel_count * 3)]
    · intro idx hidx
      rw [List.getD_eq_getElem?_getD, List.getD_eq_getElem?_getD,
        getElem?_take_lt _ _ _ hidx, getElem?_take_lt _ _ _ hidx,
        List.getElem?_drop, List.getElem?_drop,
        getElem?_take_lt _ _ _ (by omega : pixel_count + idx < pixel_count * 3)]
    · intro idx hidx
      rw [List.getD_eq_getElem?_getD, List.getD_eq_getElem?_getD,
        List.getElem?_drop, List.getElem?_drop,
        List.getElem?_drop, List.getElem?_drop,
        getElem?_take_lt _ _ _
          (by omega : pixel_count + (pixel_count + idx) < pixel_count * 3)]

/-- Witness for C10 (amended): success at exactly three samples per
pixel, and take-invariance of the 8-bit path over a trailing sample. -/
theorem C10_witness :
    (∃ rgba, rgb_planar_to_rgba_u8 [1, 2, 3] 1 = Except.ok rgba) ∧
    rgb_planar_to_rgba_u8 [1, 2, 3, 9] 1 =
      rgb_planar_to_rgba_u8 ([1, 2, 3, 9].take (1 * 3)) 1 :=
  ⟨((C10_planar_length_contract [1, 2, 3] 1).1).mpr (by decide),
   (C10_planar_length_contract [1, 2, 3, 9] 1).2.2 (by decide)⟩

end Dicomancer
